import Mathlib

/-!
Shallow embedding of the SimpleRaytracing rendering core.

Sources:
- src/ray.h      : the ray type and ray::at.
- src/main.cpp   : hit_sphere, ray_color, and main's render loop.
C++ doubles are modelled as exact reals (ℝ), std::sqrt as Real.sqrt and
the double value infinity as a dedicated upper-bound type (ubound.inf).
The headers vec3.h, sphere.h, hittable_list.h and material.h are not part
of the repository snapshot; the definitions taken from them are modelled
from the specification and marked as such in their doc comments.
-/

noncomputable section

/-- Modelled from the spec: vec3.h is missing from the snapshot.  Vector3 —
three real-valued components (x, y, z), used interchangeably as point,
direction and color. -/
@[ext] structure vec3 where
  x : ℝ
  y : ℝ
  z : ℝ

/-- Points and colors are plain vectors, as in the C++ aliases. -/
abbrev point3 := vec3

/-- Color alias for vec3, mirroring the C++ using-declaration. -/
abbrev color := vec3

def vec3.add (a b : vec3) : vec3 := ⟨a.x + b.x, a.y + b.y, a.z + b.z⟩

def vec3.sub (a b : vec3) : vec3 := ⟨a.x - b.x, a.y - b.y, a.z - b.z⟩

def vec3.neg (a : vec3) : vec3 := ⟨-a.x, -a.y, -a.z⟩

/-- Component-wise multiply (C++ operator* on two vec3, used for color tinting). -/
def vec3.mul (a b : vec3) : vec3 := ⟨a.x * b.x, a.y * b.y, a.z * b.z⟩

/-- Scalar multiply (C++ operator* with a double on either side). -/
def vec3.smul (t : ℝ) (a : vec3) : vec3 := ⟨t * a.x, t * a.y, t * a.z⟩

instance : Add vec3 := ⟨vec3.add⟩

instance : Sub vec3 := ⟨vec3.sub⟩

instance : Neg vec3 := ⟨vec3.neg⟩

instance : Mul vec3 := ⟨vec3.mul⟩

instance : SMul ℝ vec3 := ⟨vec3.smul⟩

/-- Dot product of two vectors. -/
def dot (a b : vec3) : ℝ := a.x * b.x + a.y * b.y + a.z * b.z

/-- Squared euclidean length. -/
def vec3.length_squared (a : vec3) : ℝ := a.x * a.x + a.y * a.y + a.z * a.z

/-- Euclidean length, sqrt of the squared length. -/
def vec3.length (a : vec3) : ℝ := Real.sqrt a.length_squared

/-- Normalization: v divided by its length (undefined on zero vectors; in the
real model division by zero yields 0 rather than NaN). -/
def unit_vector (a : vec3) : vec3 :=
  ⟨a.x / a.length, a.y / a.length, a.z / a.length⟩

/-- Ray — origin point plus direction vector (src/ray.h). -/
structure ray where
  origin : vec3
  direction : vec3

/-- Parametric evaluation origin + t * direction (src/ray.h line 31-34). -/
def ray.at (r : ray) (t : ℝ) : point3 := r.origin + t • r.direction

/-- Coefficient a = D·D of the sphere quadratic (local a in hit_sphere,
src/main.cpp line 16). -/
def hs_a (r : ray) : ℝ := r.direction.length_squared

/-- Vector from sphere center to ray origin (local oc in hit_sphere,
src/main.cpp line 15). -/
def hs_oc (center : point3) (r : ray) : vec3 := r.origin - center

/-- Coefficient half_b = (O−C)·D (local half_b in hit_sphere, src/main.cpp
line 17). -/
def hs_half_b (center : point3) (r : ray) : ℝ := dot (hs_oc center r) r.direction

/-- Coefficient c = |O−C|² − r² (local c in hit_sphere, src/main.cpp line 18). -/
def hs_c (center : point3) (radius : ℝ) (r : ray) : ℝ :=
  (hs_oc center r).length_squared - radius * radius

/-- Discriminant half_b² − a·c (local discriminant in hit_sphere, src/main.cpp
line 19). -/
def hs_disc (center : point3) (radius : ℝ) (r : ray) : ℝ :=
  hs_half_b center r * hs_half_b center r - hs_a r * hs_c center radius r

/-- Standalone sphere intersection routine (src/main.cpp lines 13-29):
returns -1.0 when the discriminant is negative, otherwise the near root
(−half_b − √disc)/a. -/
def hit_sphere (center : point3) (radius : ℝ) (r : ray) : ℝ :=
  if hs_disc center radius r < 0 then -1
  else (-(hs_half_b center r) - Real.sqrt (hs_disc center radius r)) / hs_a r

/-- Upper bound of a ray-parameter interval: a finite real or +infinity
(modelling the C++ double value infinity used at src/main.cpp line 42). -/
inductive ubound where
  | fin (t : ℝ) : ubound
  | inf : ubound

/-- Comparison of a real against an upper bound; everything is below inf. -/
def ubound.lt (x : ℝ) : ubound → Prop
  | ubound.fin m => x < m
  | ubound.inf => True

instance (x : ℝ) (b : ubound) : Decidable (ubound.lt x b) := by
  cases b <;> simp only [ubound.lt] <;> infer_instance

/-- Membership of a root in the open interval (t_min, t_max). -/
def in_range (t_min : ℝ) (t_max : ubound) (t : ℝ) : Prop :=
  t_min < t ∧ ubound.lt t t_max

instance (t_min : ℝ) (t_max : ubound) (t : ℝ) : Decidable (in_range t_min t_max t) :=
  instDecidableAnd

/-- Modelled from the spec: material.h is missing from the snapshot.  Closed
tagged-variant material model: lambertian (diffuse), metal (specular with
fuzz), dielectric (refractive). -/
inductive material where
  | lambertian (albedo : color) : material
  | metal (albedo : color) (fuzz : ℝ) : material
  | dielectric (ir : ℝ) : material

/-- Modelled from the spec: hittable.h is missing from the snapshot.  Transient
result of an intersection test: hit point, oriented unit normal, ray
parameter t, front-face flag and the material at the hit point. -/
structure hit_record where
  p : point3
  normal : vec3
  t : ℝ
  front_face : Bool
  mat : material

/-- Modelled from the spec: sphere.h is missing from the snapshot.  A sphere
owns a center, a signed radius and a material. -/
structure sphere where
  center : point3
  radius : ℝ
  mat : material

/-- Modelled from the spec: construction of the hit record at parameter root;
outward normal is (hit_point − center)/radius and the stored normal is
flipped to oppose the incoming ray (front-face convention). -/
def sphere.mk_hit (s : sphere) (r : ray) (root : ℝ) : hit_record :=
  let p := r.at root
  let outward_normal := (1 / s.radius) • (p - s.center)
  let ff : Bool := decide (dot r.direction outward_normal < 0)
  { p := p
    normal := if ff then outward_normal else -outward_normal
    t := root
    front_face := ff
    mat := s.mat }

/-- Modelled from the spec: sphere.h is missing from the snapshot.  Sphere
intersection: solve the quadratic; no real root means no hit; otherwise
take the smaller root, fall back to the larger root when the smaller one
is outside (t_min, t_max), and report no hit when neither is in range. -/
def sphere.hit (s : sphere) (r : ray) (t_min : ℝ) (t_max : ubound) :
    Option hit_record :=
  if hs_disc s.center s.radius r < 0 then none
  else
    let sqrtd := Real.sqrt (hs_disc s.center s.radius r)
    let root1 := (-(hs_half_b s.center r) - sqrtd) / hs_a r
    let root2 := (-(hs_half_b s.center r) + sqrtd) / hs_a r
    if in_range t_min t_max root1 then some (s.mk_hit r root1)
    else if in_range t_min t_max root2 then some (s.mk_hit r root2)
    else none

/-- Modelled from the spec: hittable_list.h is missing from the snapshot.
Nearest-hit reduction over the object list: each object is queried with the
upper bound tightened to the closest hit found so far. -/
def world_hit (objects : List sphere) (r : ray) (t_min : ℝ) (t_max : ubound) :
    Option hit_record :=
  objects.foldl
    (fun acc s =>
      match sphere.hit s r t_min
          (match acc with
           | some rec => ubound.fin rec.t
           | none => t_max) with
      | some rec => some rec
      | none => acc)
    none

/-- Modelled from the spec: near-zero test used by the lambertian fallback
(componentwise magnitude below a small epsilon). -/
def near_zero (v : vec3) : Prop :=
  |v.x| < 1e-8 ∧ |v.y| < 1e-8 ∧ |v.z| < 1e-8

instance (v : vec3) : Decidable (near_zero v) := instDecidableAnd

/-- Modelled from the spec: mirror reflection reflect(d, n) = d − 2·dot(d,n)·n. -/
def reflect (v n : vec3) : vec3 := v - (2 * dot v n) • n

/-- Modelled from the spec: Snell refraction,
r_out_perp = ratio·(d + cosθ·n), r_out_parallel = −sqrt(1 − |r_out_perp|²)·n. -/
def refract (uv n : vec3) (etai_over_etat : ℝ) : vec3 :=
  let cos_theta := min (dot (-uv) n) 1
  let r_out_perp := etai_over_etat • (uv + cos_theta • n)
  let r_out_parallel := (-(Real.sqrt (1 - r_out_perp.length_squared))) • n
  r_out_perp + r_out_parallel

/-- Modelled from the spec: Schlick reflectance approximation
R0 = ((1−ior)/(1+ior))², R(cosθ) = R0 + (1−R0)(1−cosθ)⁵. -/
def reflectance (cosine ref_idx : ℝ) : ℝ :=
  let r0 := ((1 - ref_idx) / (1 + ref_idx)) ^ 2
  r0 + (1 - r0) * (1 - cosine) ^ 5

/-- One bundle of random draws consumed by a single scatter call: a random
unit vector and a uniform draw in [0,1).  The process-wide random source of
the C++ code is modelled as an explicit stream of these bundles. -/
structure rand_sample where
  unit_vec : vec3
  uniform : ℝ

/-- Modelled from the spec: material.h is missing from the snapshot.  The
scatter contract: scatter(ray_in, hit_record) with an explicit random
bundle, returning none on absorption or the attenuation color and the
scattered ray. -/
def scatter (m : material) (r_in : ray) (rec : hit_record) (rnd : rand_sample) :
    Option (color × ray) :=
  match m with
  | material.lambertian albedo =>
      let d := rec.normal + rnd.unit_vec
      let scatter_direction := if near_zero d then rec.normal else d
      some (albedo, ⟨rec.p, scatter_direction⟩)
  | material.metal albedo fuzz =>
      let f := max 0 (min fuzz 1)
      let reflected := reflect (unit_vector r_in.direction) rec.normal
      let scattered := reflected + f • rnd.unit_vec
      if 0 < dot scattered rec.normal then some (albedo, ⟨rec.p, scattered⟩)
      else none
  | material.dielectric ir =>
      let ratio := if rec.front_face then 1 / ir else ir
      let ud := unit_vector r_in.direction
      let cos_theta := min (dot (-ud) rec.normal) 1
      let sin_theta := Real.sqrt (1 - cos_theta * cos_theta)
      let direction :=
        if 1 < ratio * sin_theta ∨ rnd.uniform < reflectance cos_theta ratio
        then reflect ud rec.normal
        else refract ud rec.normal ratio
      some (⟨1, 1, 1⟩, ⟨rec.p, direction⟩)

/-- Recursive integrator (src/main.cpp lines 32-54): black on exhausted
depth; on a hit, scatter and recurse with decremented depth (black on
absorption); on a miss, the vertical gradient background.  The recursion
consumes the head of the random stream and passes the tail on. -/
def ray_color (r : ray) (world : List sphere) (depth : ℤ)
    (rng : ℕ → rand_sample) : color :=
  if depth ≤ 0 then ⟨0, 0, 0⟩
  else
    match world_hit world r 0.001 ubound.inf with
    | some rec =>
        match scatter rec.mat r rec (rng 0) with
        | some (attenuation, scattered) =>
            attenuation * ray_color scattered world (depth - 1) (fun n => rng (n + 1))
        | none => ⟨0, 0, 0⟩
    | none =>
        let unit_direction := unit_vector r.direction
        let t := 0.5 * (unit_direction.y + 1)
        (1 - t) • (⟨1, 1, 1⟩ : color) + t • (⟨0.5, 0.7, 1.0⟩ : color)
termination_by depth.toNat
decreasing_by omega

/-- Trace of the (t_min, t_max) arguments that ray_color passes to
world.hit, one entry per recursion level that reaches the scene query
(src/main.cpp line 42); same control flow as ray_color. -/
def ray_color_queries (r : ray) (world : List sphere) (depth : ℤ)
    (rng : ℕ → rand_sample) : List (ℝ × ubound) :=
  if depth ≤ 0 then []
  else
    ((0.001 : ℝ), ubound.inf) ::
      (match world_hit world r 0.001 ubound.inf with
       | some rec =>
           match scatter rec.mat r rec (rng 0) with
           | some (_, scattered) =>
               ray_color_queries scattered world (depth - 1) (fun n => rng (n + 1))
           | none => []
       | none => [])
termination_by depth.toNat
decreasing_by omega

/-- Image width in pixels (src/main.cpp line 61). -/
def image_width : ℤ := 800

/-- Aspect ratio 16:9 (aspect_ratio in src/main.cpp line 60). -/
def aspect : ℝ := 16 / 9

/-- Image height, width over aspect ratio truncated to int (src/main.cpp
line 62); the value is positive, so C++ truncation toward zero is the floor. -/
def image_height : ℤ := ⌊(image_width : ℝ) / aspect⌋

/-- PPM header fields in emission order: format tag, width, height, max
channel value (src/main.cpp line 118). -/
def ppm_header : String × ℤ × ℤ × ℤ := ("P3", image_width, image_height, 255)

/-- One row of pixel coordinates: j fixed, i from 0 to w-1 left-to-right
(inner loop, src/main.cpp line 123). -/
def row_pixels (w j : ℕ) : List (ℕ × ℕ) :=
  (List.range w).map (fun i => (j, i))

/-- Pixel emission order of the render loop: the outer loop counts j down
from h-1 to 0, emitting each row in inner-loop order (src/main.cpp
lines 120-135). -/
def render_order (w : ℕ) : ℕ → List (ℕ × ℕ)
  | 0 => []
  | j + 1 => row_pixels w j ++ render_order w j

@[simp] theorem vec3.add_x (a b : vec3) : (a + b).x = a.x + b.x := rfl

@[simp] theorem vec3.add_y (a b : vec3) : (a + b).y = a.y + b.y := rfl

@[simp] theorem vec3.add_z (a b : vec3) : (a + b).z = a.z + b.z := rfl

@[simp] theorem vec3.sub_x (a b : vec3) : (a - b).x = a.x - b.x := rfl

@[simp] theorem vec3.sub_y (a b : vec3) : (a - b).y = a.y - b.y := rfl

@[simp] theorem vec3.sub_z (a b : vec3) : (a - b).z = a.z - b.z := rfl

@[simp] theorem vec3.neg_x (a : vec3) : (-a).x = -a.x := rfl

@[simp] theorem vec3.neg_y (a : vec3) : (-a).y = -a.y := rfl

@[simp] theorem vec3.neg_z (a : vec3) : (-a).z = -a.z := rfl

@[simp] theorem vec3.mul_x (a b : vec3) : (a * b).x = a.x * b.x := rfl

@[simp] theorem vec3.mul_y (a b : vec3) : (a * b).y = a.y * b.y := rfl

@[simp] theorem vec3.mul_z (a b : vec3) : (a * b).z = a.z * b.z := rfl

@[simp] theorem vec3.smul_x (t : ℝ) (a : vec3) : (t • a).x = t * a.x := rfl

@[simp] theorem vec3.smul_y (t : ℝ) (a : vec3) : (t • a).y = t * a.y := rfl

@[simp] theorem vec3.smul_z (t : ℝ) (a : vec3) : (t • a).z = t * a.z := rfl

@[simp] theorem vec3.mk_add_mk (a b c d e f : ℝ) :
    (⟨a, b, c⟩ + ⟨d, e, f⟩ : vec3) = ⟨a + d, b + e, c + f⟩ := rfl

@[simp] theorem vec3.mk_sub_mk (a b c d e f : ℝ) :
    (⟨a, b, c⟩ - ⟨d, e, f⟩ : vec3) = ⟨a - d, b - e, c - f⟩ := rfl

@[simp] theorem vec3.neg_mk (a b c : ℝ) :
    (-(⟨a, b, c⟩ : vec3)) = ⟨-a, -b, -c⟩ := rfl

@[simp] theorem vec3.mk_mul_mk (a b c d e f : ℝ) :
    (⟨a, b, c⟩ * ⟨d, e, f⟩ : vec3) = ⟨a * d, b * e, c * f⟩ := rfl

@[simp] theorem vec3.smul_mk (t a b c : ℝ) :
    (t • (⟨a, b, c⟩ : vec3)) = ⟨t * a, t * b, t * c⟩ := rfl

theorem render_order_eq_reverse_join (w : ℕ) :
    ∀ h : ℕ,
      render_order w h = (((List.range h).reverse).map (row_pixels w)).flatten := by
  intro h
  induction h with
  | zero => simp [render_order]
  | succ n ih =>
      rw [render_order, ih, List.range_succ]
      simp

theorem ray_color_queries_replicate_aux :
    ∀ (n : ℕ) (r : ray) (world : List sphere) (depth : ℤ)
      (rng : ℕ → rand_sample), depth.toNat ≤ n →
      ∃ k : ℕ, ray_color_queries r world depth rng
        = List.replicate k ((0.001 : ℝ), ubound.inf) := by
  intro n
  induction n with
  | zero =>
      intro r world depth rng hn
      have hd : depth ≤ 0 := by omega
      exact ⟨0, by rw [ray_color_queries]; simp [hd]⟩
  | succ n ih =>
      intro r world depth rng hn
      by_cases hd : depth ≤ 0
      · exact ⟨0, by rw [ray_color_queries]; simp [hd]⟩
      · cases hw : world_hit world r 0.001 ubound.inf with
        | none =>
            exact ⟨1, by rw [ray_color_queries]; simp [hd, hw]⟩
        | some rec =>
            cases hsc : scatter rec.mat r rec (rng 0) with
            | none =>
                exact ⟨1, by rw [ray_color_queries]; simp [hd, hw, hsc]⟩
            | some pr =>
                obtain ⟨attenuation, scattered⟩ := pr
                obtain ⟨k, hk⟩ := ih scattered world (depth - 1)
                  (fun m => rng (m + 1)) (by omega)
                refine ⟨k + 1, ?_⟩
                rw [ray_color_queries]
                simp [hd, hw, hsc, hk, List.replicate_succ]

/-- C6: every nearest-hit query the integrator makes against the scene uses
the interval (0.001, +infinity): the trace of (t_min, t_max) arguments that
ray_color passes to the scene hit is a constant list of (0.001, inf), for
every ray, scene, depth and random stream. -/
theorem ray_color_queries_const (r : ray) (world : List sphere) (depth : ℤ)
    (rng : ℕ → rand_sample) :
    ∃ k : ℕ, ray_color_queries r world depth rng
      = List.replicate k ((0.001 : ℝ), ubound.inf) :=
  ray_color_queries_replicate_aux depth.toNat r world depth rng le_rfl

/-- C8: the program header declares the format tag P3, the width 800, the
derived height 450 and the max channel value 255; the pixel emission order
of the render loop is rows top-to-bottom (outer index j from height-1 down
to 0), each row left-to-right (i from 0 to width-1). -/
theorem render_header_and_order :
    image_height = 450
    ∧ ppm_header = ("P3", 800, 450, 255)
    ∧ render_order 800 450
        = (((List.range 450).reverse).map (row_pixels 800)).flatten := by
  have hh : image_height = 450 := by
    rw [image_height, aspect, image_width]
    have h45 : ((800 : ℤ) : ℝ) / (16 / 9) = ((450 : ℤ) : ℝ) := by norm_num
    rw [h45, Int.floor_intCast]
  refine ⟨hh, ?_, render_order_eq_reverse_join 800 450⟩
  rw [ppm_header, image_width, hh]

/-- C7: a ray constructed from an origin and a direction evaluates
at(t) = origin + t * direction for every real t; the accessors return the
construction values unchanged (rays are immutable values, at is pure and
total). -/
theorem ray_at_eval (o d : vec3) (t : ℝ) :
    (ray.mk o d).at t = o + t • d
    ∧ ((ray.mk o d).at t).x = o.x + t * d.x
    ∧ ((ray.mk o d).at t).y = o.y + t * d.y
    ∧ ((ray.mk o d).at t).z = o.z + t * d.z
    ∧ (ray.mk o d).origin = o ∧ (ray.mk o d).direction = d :=
  ⟨rfl, rfl, rfl, rfl, rfl, rfl⟩

/-- C3: for every ray, scene, and random stream, ray_color with a
non-positive bounce budget returns exactly the black color (0,0,0). -/
theorem ray_color_depth_exhausted_black (r : ray) (world : List sphere)
    (depth : ℤ) (rng : ℕ → rand_sample) (h : depth ≤ 0) :
    ray_color r world depth rng = ⟨0, 0, 0⟩ := by
  rw [ray_color]
  simp [h]

/-- Witness for C3 at a concrete ray, the empty scene and depth 0. -/
theorem ray_color_depth_exhausted_black_witness :
    ray_color ⟨⟨0, 0, 0⟩, ⟨0, 0, 1⟩⟩ [] 0 (fun _ => ⟨⟨1, 0, 0⟩, 0⟩) = ⟨0, 0, 0⟩ :=
  ray_color_depth_exhausted_black _ _ 0 _ (by norm_num)

/-- C1: hit_sphere solves the quadratic with coefficients a = D·D,
half_b = (O−C)·D, c = |O−C|² − r² and discriminant half_b² − a·c; a negative
discriminant reports no hit (the -1 sentinel), otherwise the result is
(−half_b − √disc)/a, which is the smaller of the two roots whenever a > 0;
for origin (0,0,-5), direction (0,0,1) against the unit sphere at the origin
the reported parameter is exactly the analytic near root 4. -/
theorem hit_sphere_quadratic (center : point3) (radius : ℝ) (r : ray) :
    (hs_disc center radius r < 0 → hit_sphere center radius r = -1)
    ∧ (0 ≤ hs_disc center radius r →
        hit_sphere center radius r
          = (-(hs_half_b center r) - Real.sqrt (hs_disc center radius r)) / hs_a r
        ∧ (0 < hs_a r →
            hit_sphere center radius r
              ≤ (-(hs_half_b center r) + Real.sqrt (hs_disc center radius r)) / hs_a r))
    ∧ hit_sphere ⟨0, 0, 0⟩ 1 ⟨⟨0, 0, -5⟩, ⟨0, 0, 1⟩⟩ = 4 := by
  refine ⟨fun h => by rw [hit_sphere, if_pos h], fun h => ?_, ?_⟩
  · have heq : hit_sphere center radius r
        = (-(hs_half_b center r) - Real.sqrt (hs_disc center radius r)) / hs_a r := by
      rw [hit_sphere, if_neg (not_lt.mpr h)]
    refine ⟨heq, fun ha => ?_⟩
    rw [heq]
    have hs := Real.sqrt_nonneg (hs_disc center radius r)
    rw [div_le_div_iff_of_pos_right ha]
    linarith
  · have h : hs_disc ⟨0, 0, 0⟩ 1 ⟨⟨0, 0, -5⟩, ⟨0, 0, 1⟩⟩ = 1 := by
      norm_num [hs_disc, hs_half_b, hs_a, hs_c, hs_oc, dot, vec3.length_squared,
        vec3.sub]
    rw [hit_sphere, h]
    norm_num [hs_half_b, hs_a, hs_oc, dot, vec3.length_squared, vec3.sub]

/-- Witness for C1: a concrete miss (discriminant -24 < 0) reports -1, and
the concrete hit of the spec example reports 4. -/
theorem hit_sphere_quadratic_witness :
    hit_sphere ⟨0, 0, 0⟩ 1 ⟨⟨0, 0, -5⟩, ⟨1, 0, 0⟩⟩ = -1
    ∧ hit_sphere ⟨0, 0, 0⟩ 1 ⟨⟨0, 0, -5⟩, ⟨0, 0, 1⟩⟩ = 4 := by
  constructor
  · exact (hit_sphere_quadratic ⟨0, 0, 0⟩ 1 ⟨⟨0, 0, -5⟩, ⟨1, 0, 0⟩⟩).1
      (by norm_num [hs_disc, hs_half_b, hs_a, hs_c, hs_oc, dot,
        vec3.length_squared, vec3.sub])
  · exact (hit_sphere_quadratic ⟨0, 0, 0⟩ 1 ⟨⟨0, 0, -5⟩, ⟨0, 0, 1⟩⟩).2.2

/-- C2: whenever the discriminant is nonnegative and the near root
(−half_b − √disc)/a falls outside (t_min, t_max) while the far root
(−half_b + √disc)/a lies inside, sphere.hit reports the far root; and it
reports no hit exactly when neither root lies in the interval. -/
theorem sphere_hit_far_root_fallback (s : sphere) (r : ray) (t_min : ℝ)
    (t_max : ubound) (hd : 0 ≤ hs_disc s.center s.radius r) :
    (¬ in_range t_min t_max
        ((-(hs_half_b s.center r) - Real.sqrt (hs_disc s.center s.radius r)) / hs_a r) →
      in_range t_min t_max
        ((-(hs_half_b s.center r) + Real.sqrt (hs_disc s.center s.radius r)) / hs_a r) →
      sphere.hit s r t_min t_max
        = some (s.mk_hit r
            ((-(hs_half_b s.center r) + Real.sqrt (hs_disc s.center s.radius r)) / hs_a r)))
    ∧ (sphere.hit s r t_min t_max = none ↔
        (¬ in_range t_min t_max
            ((-(hs_half_b s.center r) - Real.sqrt (hs_disc s.center s.radius r)) / hs_a r)
          ∧ ¬ in_range t_min t_max
            ((-(hs_half_b s.center r) + Real.sqrt (hs_disc s.center s.radius r)) / hs_a r))) := by
  have hnd : ¬ hs_disc s.center s.radius r < 0 := not_lt.mpr hd
  constructor
  · intro h1 h2
    simp [sphere.hit, hnd, h1, h2]
  · constructor
    · intro hnone
      by_cases h1 : in_range t_min t_max
          ((-(hs_half_b s.center r) - Real.sqrt (hs_disc s.center s.radius r)) / hs_a r)
      · exfalso
        simp [sphere.hit, hnd, h1] at hnone
      · by_cases h2 : in_range t_min t_max
            ((-(hs_half_b s.center r) + Real.sqrt (hs_disc s.center s.radius r)) / hs_a r)
        · exfalso
          simp [sphere.hit, hnd, h1, h2] at hnone
        · exact ⟨h1, h2⟩
    · rintro ⟨h1, h2⟩
      simp [sphere.hit, hnd, h1, h2]

/-- Witness for C2: the ray from the center of the unit sphere; the near root
-1 is outside (0.001, inf), the far root 1 is inside, and the reported hit
parameter is 1. -/
theorem sphere_hit_far_root_fallback_witness :
    ¬ in_range 0.001 ubound.inf (-1 : ℝ)
    ∧ in_range 0.001 ubound.inf (1 : ℝ)
    ∧ (sphere.hit ⟨⟨0, 0, 0⟩, 1, material.lambertian ⟨1, 1, 1⟩⟩
          ⟨⟨0, 0, 0⟩, ⟨0, 0, 1⟩⟩ 0.001 ubound.inf).map hit_record.t = some (1 : ℝ) := by
  have hdisc : hs_disc ⟨0, 0, 0⟩ 1 ⟨⟨0, 0, 0⟩, ⟨0, 0, 1⟩⟩ = 1 := by
    norm_num [hs_disc, hs_half_b, hs_a, hs_c, hs_oc, dot, vec3.length_squared,
      vec3.sub]
  have hb : hs_half_b ⟨0, 0, 0⟩ ⟨⟨0, 0, 0⟩, ⟨0, 0, 1⟩⟩ = 0 := by
    norm_num [hs_half_b, hs_oc, dot, vec3.sub]
  have ha : hs_a ⟨⟨0, 0, 0⟩, ⟨0, 0, 1⟩⟩ = 1 := by
    norm_num [hs_a, vec3.length_squared]
  have e1 : (-(hs_half_b ⟨0, 0, 0⟩ ⟨⟨0, 0, 0⟩, ⟨0, 0, 1⟩⟩)
      - Real.sqrt (hs_disc ⟨0, 0, 0⟩ 1 ⟨⟨0, 0, 0⟩, ⟨0, 0, 1⟩⟩))
      / hs_a ⟨⟨0, 0, 0⟩, ⟨0, 0, 1⟩⟩ = -1 := by
    rw [hdisc, hb, ha]
    norm_num
  have e2 : (-(hs_half_b ⟨0, 0, 0⟩ ⟨⟨0, 0, 0⟩, ⟨0, 0, 1⟩⟩)
      + Real.sqrt (hs_disc ⟨0, 0, 0⟩ 1 ⟨⟨0, 0, 0⟩, ⟨0, 0, 1⟩⟩))
      / hs_a ⟨⟨0, 0, 0⟩, ⟨0, 0, 1⟩⟩ = 1 := by
    rw [hdisc, hb, ha]
    norm_num
  have h1 : ¬ in_range 0.001 ubound.inf (-1 : ℝ) := by
    norm_num [in_range, ubound.lt]
  have h2 : in_range 0.001 ubound.inf (1 : ℝ) := by
    norm_num [in_range, ubound.lt]
  have happ := (sphere_hit_far_root_fallback
      ⟨⟨0, 0, 0⟩, 1, material.lambertian ⟨1, 1, 1⟩⟩ ⟨⟨0, 0, 0⟩, ⟨0, 0, 1⟩⟩
      0.001 ubound.inf (by rw [hdisc]; norm_num)).1
      (by rw [e1]; exact h1) (by rw [e2]; exact h2)
  refine ⟨h1, h2, ?_⟩
  rw [happ]
  simp only [Option.map_some']
  have ht : (sphere.mk_hit ⟨⟨0, 0, 0⟩, 1, material.lambertian ⟨1, 1, 1⟩⟩
      ⟨⟨0, 0, 0⟩, ⟨0, 0, 1⟩⟩
      ((-(hs_half_b ⟨0, 0, 0⟩ ⟨⟨0, 0, 0⟩, ⟨0, 0, 1⟩⟩)
        + Real.sqrt (hs_disc ⟨0, 0, 0⟩ 1 ⟨⟨0, 0, 0⟩, ⟨0, 0, 1⟩⟩))
        / hs_a ⟨⟨0, 0, 0⟩, ⟨0, 0, 1⟩⟩)).t
      = (-(hs_half_b ⟨0, 0, 0⟩ ⟨⟨0, 0, 0⟩, ⟨0, 0, 1⟩⟩)
        + Real.sqrt (hs_disc ⟨0, 0, 0⟩ 1 ⟨⟨0, 0, 0⟩, ⟨0, 0, 1⟩⟩))
        / hs_a ⟨⟨0, 0, 0⟩, ⟨0, 0, 1⟩⟩ := rfl
  rw [ht, e2]

/-- Evaluation of the integrator's miss branch: with positive depth and no
scene hit, ray_color returns the vertical gradient background. -/
theorem ray_color_miss_eq (r : ray) (world : List sphere) (depth : ℤ)
    (rng : ℕ → rand_sample) (hd : 0 < depth)
    (hm : world_hit world r 0.001 ubound.inf = none) :
    ray_color r world depth rng
      = (1 - 0.5 * ((unit_vector r.direction).y + 1)) • (⟨1, 1, 1⟩ : color)
        + (0.5 * ((unit_vector r.direction).y + 1)) • (⟨0.5, 0.7, 1.0⟩ : color) := by
  rw [ray_color]
  simp [not_le.mpr hd, hm]

/-- C5: for every ray with positive depth that hits nothing in the scene,
ray_color returns the linear interpolation (1-t)·(1,1,1) + t·(0.5,0.7,1.0)
with t = 0.5·(unit_direction.y + 1), unit_direction being the normalized
ray direction. -/
theorem ray_color_miss_background (r : ray) (world : List sphere) (depth : ℤ)
    (rng : ℕ → rand_sample) (hd : 0 < depth)
    (hm : world_hit world r 0.001 ubound.inf = none) :
    ray_color r world depth rng
      = (1 - 0.5 * ((unit_vector r.direction).y + 1)) • (⟨1, 1, 1⟩ : color)
        + (0.5 * ((unit_vector r.direction).y + 1)) • (⟨0.5, 0.7, 1.0⟩ : color) :=
  ray_color_miss_eq r world depth rng hd hm

/-- Witness for C5: a concrete upward ray against the empty scene at depth 1
evaluates to the concrete gradient color (0.75, 0.85, 1). -/
theorem ray_color_miss_background_witness :
    ray_color ⟨⟨0, 0, 0⟩, ⟨0, 0, 1⟩⟩ [] 1 (fun _ => ⟨⟨1, 0, 0⟩, 0⟩)
      = ⟨0.75, 0.85, 1⟩ := by
  rw [ray_color_miss_background ⟨⟨0, 0, 0⟩, ⟨0, 0, 1⟩⟩ [] 1 (fun _ => ⟨⟨1, 0, 0⟩, 0⟩)
    (by norm_num) rfl]
  have hy : (unit_vector (ray.mk ⟨0, 0, 0⟩ ⟨0, 0, 1⟩).direction).y = 0 := by
    simp [unit_vector]
  rw [hy]
  apply vec3.ext <;> simp <;> norm_num

theorem unit_vector_y (a : vec3) : (unit_vector a).y = a.y / a.length := rfl

theorem unit_vector_y_bounds (d : vec3) (hnz : d ≠ ⟨0, 0, 0⟩) :
    -1 ≤ (unit_vector d).y ∧ (unit_vector d).y ≤ 1 := by
  have hls : 0 < d.length_squared := by
    have h0 : 0 ≤ d.length_squared := by
      rw [vec3.length_squared]
      nlinarith [mul_self_nonneg d.x, mul_self_nonneg d.y, mul_self_nonneg d.z]
    rcases lt_or_eq_of_le h0 with h | h
    · exact h
    · exfalso
      apply hnz
      have hz : d.x * d.x + d.y * d.y + d.z * d.z = 0 := by
        rw [vec3.length_squared] at h
        linarith
      have hx0 : d.x = 0 := by
        have : d.x * d.x = 0 := by
          nlinarith [mul_self_nonneg d.y, mul_self_nonneg d.z]
        exact mul_self_eq_zero.mp this
      have hy0 : d.y = 0 := by
        have : d.y * d.y = 0 := by
          nlinarith [mul_self_nonneg d.x, mul_self_nonneg d.z]
        exact mul_self_eq_zero.mp this
      have hz0 : d.z = 0 := by
        have : d.z * d.z = 0 := by
          nlinarith [mul_self_nonneg d.x, mul_self_nonneg d.y]
        exact mul_self_eq_zero.mp this
      exact vec3.ext hx0 hy0 hz0
  have hlen : 0 < d.length := Real.sqrt_pos.mpr hls
  have hyb : |d.y| ≤ d.length := by
    rw [← Real.sqrt_sq_eq_abs, vec3.length]
    apply Real.sqrt_le_sqrt
    rw [vec3.length_squared]
    nlinarith [mul_self_nonneg d.x, mul_self_nonneg d.z]
  obtain ⟨hb1, hb2⟩ := abs_le.mp hyb
  rw [unit_vector_y]
  constructor
  · rw [le_div_iff₀ hlen]
    linarith
  · rw [div_le_one hlen]
    exact hb2

/-- C10: for every ray with nonzero direction and positive depth that hits
nothing, the returned color has blue component exactly 1, red in [0.5, 1]
and green in [0.7, 1]; in particular a miss is never black, so the
background outcome is distinguishable from depth exhaustion and absorption. -/
theorem ray_color_miss_nonblack (r : ray) (world : List sphere) (depth : ℤ)
    (rng : ℕ → rand_sample) (hnz : r.direction ≠ ⟨0, 0, 0⟩) (hd : 0 < depth)
    (hm : world_hit world r 0.001 ubound.inf = none) :
    (ray_color r world depth rng).z = 1
    ∧ (0.5 ≤ (ray_color r world depth rng).x ∧ (ray_color r world depth rng).x ≤ 1)
    ∧ (0.7 ≤ (ray_color r world depth rng).y ∧ (ray_color r world depth rng).y ≤ 1)
    ∧ ray_color r world depth rng ≠ ⟨0, 0, 0⟩ := by
  obtain ⟨hy1, hy2⟩ := unit_vector_y_bounds r.direction hnz
  rw [ray_color_miss_eq r world depth rng hd hm]
  have hz : ((1 - 0.5 * ((unit_vector r.direction).y + 1)) • (⟨1, 1, 1⟩ : color)
      + (0.5 * ((unit_vector r.direction).y + 1)) • (⟨0.5, 0.7, 1.0⟩ : color)).z
      = 1 := by
    simp
    ring
  refine ⟨hz, ⟨?_, ?_⟩, ⟨?_, ?_⟩, ?_⟩
  · simp
    nlinarith
  · simp
    nlinarith
  · simp
    nlinarith
  · simp
    nlinarith
  · intro h
    have := congrArg vec3.z h
    rw [hz] at this
    simp at this

/-- Witness for C10 at a concrete upward ray, the empty scene and depth 1,
where the background color is (0.75, 0.85, 1). -/
theorem ray_color_miss_nonblack_witness :
    (ray_color ⟨⟨0, 0, 0⟩, ⟨0, 0, 1⟩⟩ [] 1 (fun _ => ⟨⟨1, 0, 0⟩, 0⟩)).z = 1
    ∧ (0.5 ≤ (ray_color ⟨⟨0, 0, 0⟩, ⟨0, 0, 1⟩⟩ [] 1 (fun _ => ⟨⟨1, 0, 0⟩, 0⟩)).x
      ∧ (ray_color ⟨⟨0, 0, 0⟩, ⟨0, 0, 1⟩⟩ [] 1 (fun _ => ⟨⟨1, 0, 0⟩, 0⟩)).x ≤ 1)
    ∧ (0.7 ≤ (ray_color ⟨⟨0, 0, 0⟩, ⟨0, 0, 1⟩⟩ [] 1 (fun _ => ⟨⟨1, 0, 0⟩, 0⟩)).y
      ∧ (ray_color ⟨⟨0, 0, 0⟩, ⟨0, 0, 1⟩⟩ [] 1 (fun _ => ⟨⟨1, 0, 0⟩, 0⟩)).y ≤ 1)
    ∧ ray_color ⟨⟨0, 0, 0⟩, ⟨0, 0, 1⟩⟩ [] 1 (fun _ => ⟨⟨1, 0, 0⟩, 0⟩) ≠ ⟨0, 0, 0⟩ :=
  ray_color_miss_nonblack ⟨⟨0, 0, 0⟩, ⟨0, 0, 1⟩⟩ [] 1 (fun _ => ⟨⟨1, 0, 0⟩, 0⟩)
    (by intro h; simpa using congrArg vec3.z h) (by norm_num) rfl

/-- C4: with positive depth and an existing nearest hit, ray_color returns
the component-wise product of the scatter attenuation with the recursive
color of the scattered ray at decremented depth, and returns black when the
material absorbs (scatter returns none). -/
theorem ray_color_hit_scatter (r : ray) (world : List sphere) (depth : ℤ)
    (rng : ℕ → rand_sample) (rec : hit_record) (hd : 0 < depth)
    (hh : world_hit world r 0.001 ubound.inf = some rec) :
    (∀ attenuation scattered,
        scatter rec.mat r rec (rng 0) = some (attenuation, scattered) →
        ray_color r world depth rng
          = attenuation * ray_color scattered world (depth - 1) (fun n => rng (n + 1)))
    ∧ (scatter rec.mat r rec (rng 0) = none →
        ray_color r world depth rng = ⟨0, 0, 0⟩) := by
  have hnd : ¬ depth ≤ 0 := not_le.mpr hd
  constructor
  · intro attenuation scattered hsc
    rw [ray_color]
    simp [hnd, hh, hsc]
  · intro hsc
    rw [ray_color]
    simp [hnd, hh, hsc]

/-- Witness for C4: a head-on ray against a lambertian unit sphere centered
at (0,0,-2); the nearest hit is at t = 1 with normal (0,0,1), the lambertian
always scatters with attenuation (0.5,0.5,0.5) and direction normal plus the
random unit vector (1,0,0), so ray_color at depth 2 equals that attenuation
times the recursive color of the scattered ray at depth 1. -/
theorem ray_color_hit_scatter_witness :
    ray_color ⟨⟨0, 0, 0⟩, ⟨0, 0, -1⟩⟩
        [⟨⟨0, 0, -2⟩, 1, material.lambertian ⟨1/2, 1/2, 1/2⟩⟩] 2
        (fun _ => ⟨⟨1, 0, 0⟩, 0⟩)
      = (⟨1/2, 1/2, 1/2⟩ : color)
        * ray_color ⟨⟨0, 0, -1⟩, ⟨1, 0, 1⟩⟩
            [⟨⟨0, 0, -2⟩, 1, material.lambertian ⟨1/2, 1/2, 1/2⟩⟩] 1
            (fun _ => ⟨⟨1, 0, 0⟩, 0⟩) := by
  have hdisc : hs_disc ⟨0, 0, -2⟩ 1 ⟨⟨0, 0, 0⟩, ⟨0, 0, -1⟩⟩ = 1 := by
    norm_num [hs_disc, hs_half_b, hs_a, hs_c, hs_oc, dot, vec3.length_squared]
  have hb : hs_half_b ⟨0, 0, -2⟩ ⟨⟨0, 0, 0⟩, ⟨0, 0, -1⟩⟩ = -2 := by
    norm_num [hs_half_b, hs_oc, dot]
  have ha : hs_a ⟨⟨0, 0, 0⟩, ⟨0, 0, -1⟩⟩ = 1 := by
    norm_num [hs_a, vec3.length_squared]
  have hmk : sphere.mk_hit ⟨⟨0, 0, -2⟩, 1, material.lambertian ⟨1/2, 1/2, 1/2⟩⟩
      ⟨⟨0, 0, 0⟩, ⟨0, 0, -1⟩⟩ 1
      = ⟨⟨0, 0, -1⟩, ⟨0, 0, 1⟩, 1, true, material.lambertian ⟨1/2, 1/2, 1/2⟩⟩ := by
    simp only [sphere.mk_hit, ray.at]
    norm_num [dot]
  have hsph : sphere.hit ⟨⟨0, 0, -2⟩, 1, material.lambertian ⟨1/2, 1/2, 1/2⟩⟩
      ⟨⟨0, 0, 0⟩, ⟨0, 0, -1⟩⟩ 0.001 ubound.inf
      = some (⟨⟨0, 0, -1⟩, ⟨0, 0, 1⟩, 1, true,
          material.lambertian ⟨1/2, 1/2, 1/2⟩⟩ : hit_record) := by
    rw [sphere.hit]
    simp only [hdisc, hb, ha]
    norm_num [in_range, ubound.lt, hmk]
  have hw : world_hit [⟨⟨0, 0, -2⟩, 1, material.lambertian ⟨1/2, 1/2, 1/2⟩⟩]
      ⟨⟨0, 0, 0⟩, ⟨0, 0, -1⟩⟩ 0.001 ubound.inf
      = some (⟨⟨0, 0, -1⟩, ⟨0, 0, 1⟩, 1, true,
          material.lambertian ⟨1/2, 1/2, 1/2⟩⟩ : hit_record) := by
    rw [world_hit, List.foldl_cons, List.foldl_nil]
    rw [hsph]
  have hscat : scatter (material.lambertian ⟨1/2, 1/2, 1/2⟩)
      ⟨⟨0, 0, 0⟩, ⟨0, 0, -1⟩⟩
      (⟨⟨0, 0, -1⟩, ⟨0, 0, 1⟩, 1, true,
        material.lambertian ⟨1/2, 1/2, 1/2⟩⟩ : hit_record)
      ⟨⟨1, 0, 0⟩, 0⟩
      = some ((⟨1/2, 1/2, 1/2⟩ : color), (⟨⟨0, 0, -1⟩, ⟨1, 0, 1⟩⟩ : ray)) := by
    rw [scatter]
    norm_num [near_zero]
  exact (ray_color_hit_scatter ⟨⟨0, 0, 0⟩, ⟨0, 0, -1⟩⟩
      [⟨⟨0, 0, -2⟩, 1, material.lambertian ⟨1/2, 1/2, 1/2⟩⟩] 2
      (fun _ => ⟨⟨1, 0, 0⟩, 0⟩)
      (⟨⟨0, 0, -1⟩, ⟨0, 0, 1⟩, 1, true,
        material.lambertian ⟨1/2, 1/2, 1/2⟩⟩ : hit_record)
      (by norm_num) hw).1 ⟨1/2, 1/2, 1/2⟩ ⟨⟨0, 0, -1⟩, ⟨1, 0, 1⟩⟩ hscat

/-- C9: the -1 sentinel of hit_sphere is ambiguous.  A genuinely missing ray
(discriminant -24 < 0) returns -1; but the ray from the center of the unit
sphere along +z genuinely intersects the sphere (its point at t = 1 lies on
the sphere), has nonnegative discriminant, and hit_sphere still returns the
unconditional near root, here the negative value -1 — exactly the miss
sentinel, indistinguishable from a miss at the interface. -/
theorem hit_sphere_sentinel_ambiguous :
    (hs_disc ⟨0, 0, 0⟩ 1 ⟨⟨0, 0, -5⟩, ⟨1, 0, 0⟩⟩ < 0
      ∧ hit_sphere ⟨0, 0, 0⟩ 1 ⟨⟨0, 0, -5⟩, ⟨1, 0, 0⟩⟩ = -1)
    ∧ ((ray.at ⟨⟨0, 0, 0⟩, ⟨0, 0, 1⟩⟩ 1 - (⟨0, 0, 0⟩ : point3)).length_squared
        = 1 * 1
      ∧ 0 ≤ hs_disc ⟨0, 0, 0⟩ 1 ⟨⟨0, 0, 0⟩, ⟨0, 0, 1⟩⟩
      ∧ hit_sphere ⟨0, 0, 0⟩ 1 ⟨⟨0, 0, 0⟩, ⟨0, 0, 1⟩⟩ = -1
      ∧ (-1 : ℝ) < 0) := by
  have hmiss : hs_disc ⟨0, 0, 0⟩ 1 ⟨⟨0, 0, -5⟩, ⟨1, 0, 0⟩⟩ = -24 := by
    norm_num [hs_disc, hs_half_b, hs_a, hs_c, hs_oc, dot, vec3.length_squared,
      vec3.sub]
  have hd : hs_disc ⟨0, 0, 0⟩ 1 ⟨⟨0, 0, 0⟩, ⟨0, 0, 1⟩⟩ = 1 := by
    norm_num [hs_disc, hs_half_b, hs_a, hs_c, hs_oc, dot, vec3.length_squared,
      vec3.sub]
  refine ⟨⟨by rw [hmiss]; norm_num, by rw [hit_sphere, if_pos]; rw [hmiss]; norm_num⟩,
    ?_, by rw [hd]; norm_num, ?_, by norm_num⟩
  · norm_num [ray.at, vec3.length_squared, vec3.sub, vec3.add, vec3.smul]
  · rw [hit_sphere, hd]
    norm_num [hs_half_b, hs_a, hs_oc, dot, vec3.length_squared, vec3.sub]

end
